import Mathlib

/-
Verification development for the text-overlay service in
src/translate_image_api.py.  The core of that file is the auto-fit text
layout engine inside the translate_image handler: a greedy line wrapper
(wrap_text_to_width), a monotone font-shrink loop with a box-expansion
fallback, and per-region command emission (one cover fill followed by one
draw-text command per wrapped line).

The embedding below is a shallow model of that code:
- Python strings are lists of characters; str.split() and str.strip() are
  modelled by pySplit and pyStrip over Char.isWhitespace.
- A PIL font is modelled as a pair of measurement functions (the width and
  height components of measure_text, line 78-81 of the source); loading
  DejaVuSans-Bold.ttf at a size is a function that may fail (Option),
  modelling the try/except around ImageFont.truetype.
- The while-True shrink loop (lines 107-160) is fitLoop, structurally
  recursive on an explicit fuel; fitSearch supplies fuel initial_size + 1,
  which is proved sufficient (the loop body runs at most
  ceil((initial - MIN_FONT)/FONT_STEP) + 1 times).
- Drawing is modelled as emission of commands (Cmd) instead of canvas
  mutation; one region's processing (loop body lines 48-171) is
  processRegion, and the whole pass over ocrResults is translateRegions.
-/

namespace TranslateImage

/-- Python str.split() helper: accumulate the current word while scanning. -/
def pySplitAux : List Char → List Char → List (List Char)
  | [], acc => if acc = [] then [] else [acc]
  | c :: cs, acc =>
    if c.isWhitespace then
      if acc = [] then pySplitAux cs [] else acc :: pySplitAux cs []
    else
      pySplitAux cs (acc ++ [c])

/-- Python text.split(): split on runs of whitespace, dropping empty pieces. -/
def pySplit (s : List Char) : List (List Char) :=
  pySplitAux s []

/-- Python text.strip(): drop leading and trailing whitespace. -/
def pyStrip (s : List Char) : List Char :=
  ((s.dropWhile Char.isWhitespace).reverse.dropWhile Char.isWhitespace).reverse

/-- Join lines with single spaces, as in the spec's space-joined concatenation. -/
def joinSp : List (List Char) → List Char
  | [] => []
  | [l] => l
  | l :: l' :: ls => l ++ ' ' :: joinSp (l' :: ls)

/-- A loaded font, reduced to its measurement behaviour: the width and height
components of measure_text (source lines 78-81, font.getbbox differences). -/
structure Font where
  width : List Char → ℕ
  height : List Char → ℕ

/-- measure_text (source lines 78-81): pixel (width, height) of text. -/
def measure_text (text : List Char) (font : Font) : ℕ × ℕ :=
  (font.width text, font.height text)

/-- Inner loop of wrap_text_to_width (source lines 90-99): greedily extend
current_line by the next word while the candidate still measures within
max_width, else close the line and restart from the word. -/
def wrapLoop (font : Font) (max_width : ℤ) : List Char → List (List Char) → List (List Char)
  | current_line, [] => [current_line]
  | current_line, word :: words =>
    let test_line := current_line ++ ' ' :: word
    if (font.width test_line : ℤ) ≤ max_width then
      wrapLoop font max_width test_line words
    else
      current_line :: wrapLoop font max_width word words

/-- wrap_text_to_width (source lines 84-100). -/
def wrap_text_to_width (text : List Char) (font : Font) (max_width : ℤ) : List (List Char) :=
  match pySplit text with
  | [] => []
  | w :: ws => wrapLoop font max_width w ws

/-- Python max over a list of widths (0 on the never-used empty case). -/
def maxList (l : List ℕ) : ℕ :=
  l.foldr max 0

/-- MIN_FONT (source line 104). -/
def MIN_FONT : ℕ := 6

/-- FONT_STEP (source line 105). -/
def FONT_STEP : ℕ := 2

/-- PAD (source line 59). -/
def PAD : ℤ := 2

/-- Total block height of a wrapped list of lines at a font: sum of line
heights plus 4px spacing between consecutive lines (source lines 113-120). -/
def blockHeight (font : Font) (lines : List (List Char)) : ℕ :=
  (lines.map font.height).sum + (lines.length - 1) * 4

/-- The shrink-loop misfit test (source lines 123 and 133): lines is nonempty
and some line is wider than w0 or the block is taller than h0. -/
def misfit (text : List Char) (font : Font) (w0 h0 : ℤ) : Prop :=
  wrap_text_to_width text font w0 ≠ [] ∧
    (w0 < (maxList ((wrap_text_to_width text font w0).map font.width) : ℤ) ∨
      h0 < (blockHeight font (wrap_text_to_width text font w0) : ℤ))

instance misfitDecidable (text : List Char) (font : Font) (w0 h0 : ℤ) :
    Decidable (misfit text font w0 h0) := by
  unfold misfit
  infer_instance

/-- The font environment: ImageFont.truetype at a requested size, which may
fail (None models the raised exception), and ImageFont.load_default(). -/
structure FontEnv where
  truetype : ℕ → Option Font
  default : Font

/-- How the shrink loop of translate_image exited. -/
inductive ExitKind where
  | fit
  | fontFail
  | expanded
  | fuelOut
deriving DecidableEq

/-- State left behind by the shrink loop (source lines 107-160): the wrapped
lines and their measured heights, the final current_font and font_size, the
final box width and height w0/h0, plus bookkeeping for the verification
(iteration count, the (size, font) pairs evaluated, and the exit branch). -/
structure FitResult where
  lines : List (List Char)
  lineHeights : List ℕ
  font : Font
  fontSize : ℕ
  w : ℤ
  h : ℤ
  iters : ℕ
  trace : List (ℕ × Font)
  exit : ExitKind

/-- The while-True loop of translate_image (source lines 107-160), with
explicit fuel.  Each iteration wraps at the current font and box width; on a
misfit with font_size > MIN_FONT it shrinks the size and reloads the font
(falling back to the default font and breaking when the load fails); on a
misfit at the floor it expands the box clamped to the image and breaks; else
it breaks with a fit. -/
def fitLoop (env : FontEnv) (text : List Char) (x0 y0 : ℤ) (img_w img_h : ℕ) :
    ℕ → ℕ → Font → ℤ → ℤ → FitResult
  | 0, font_size, current_font, w0, h0 =>
    { lines := [], lineHeights := [], font := current_font, fontSize := font_size,
      w := w0, h := h0, iters := 0, trace := [], exit := .fuelOut }
  | fuel + 1, font_size, current_font, w0, h0 =>
    let lines := wrap_text_to_width text current_font w0
    if misfit text current_font w0 h0 then
      if MIN_FONT < font_size then
        let fs' := max MIN_FONT (font_size - FONT_STEP)
        match env.truetype fs' with
        | some f' =>
          let r := fitLoop env text x0 y0 img_w img_h fuel fs' f' w0 h0
          { r with iters := r.iters + 1, trace := (font_size, current_font) :: r.trace }
        | none =>
          { lines := lines, lineHeights := lines.map current_font.height,
            font := env.default, fontSize := fs', w := w0, h := h0, iters := 1,
            trace := [(font_size, current_font)], exit := .fontFail }
      else
        let new_w := max w0 (maxList (lines.map current_font.width) : ℤ)
        let new_h := max h0 (blockHeight current_font lines : ℤ)
        let w1 := min new_w ((img_w : ℤ) - x0)
        let h1 := min new_h ((img_h : ℤ) - y0)
        let lines2 := wrap_text_to_width text current_font w1
        let h2 := if ((img_h : ℤ) - y0) < (blockHeight current_font lines2 : ℤ) then
            (img_h : ℤ) - y0 else h1
        { lines := lines2, lineHeights := lines2.map current_font.height,
          font := current_font, fontSize := font_size, w := w1, h := h2, iters := 1,
          trace := [(font_size, current_font)], exit := .expanded }
    else
      { lines := lines, lineHeights := lines.map current_font.height,
        font := current_font, fontSize := font_size, w := w0, h := h0, iters := 1,
        trace := [(font_size, current_font)], exit := .fit }

/-- The shrink loop run from an initial size with adequate fuel (proved below:
the loop body executes at most ceil((fs - MIN_FONT)/FONT_STEP) + 1 ≤ fs + 1
times). -/
def fitSearch (env : FontEnv) (text : List Char) (x0 y0 : ℤ) (img_w img_h : ℕ)
    (font_size : ℕ) (font : Font) (w0 h0 : ℤ) : FitResult :=
  fitLoop env text x0 y0 img_w img_h (font_size + 1) font_size font w0 h0

/-- A drawing command emitted against the canvas: the cover fill
(draw.rectangle, source line 70) or one text line (draw.text, line 170). -/
inductive Cmd where
  | fillRect (left top right bottom : ℤ)
  | drawText (x y : ℤ) (text : List Char) (font : Font)

/-- The padded cover ("erase") rectangle of a region (source lines 58-67):
pad by PAD, clamp to the image, then repair inverted extents. -/
structure CoverR where
  left : ℤ
  top : ℤ
  right : ℤ
  bottom : ℤ
deriving DecidableEq

/-- Computation of the padded cover rectangle (source lines 58-67). -/
def coverRect (img_w img_h : ℕ) (x0 y0 w0 h0 : ℤ) : CoverR :=
  let left := max 0 (x0 - PAD)
  let top := max 0 (y0 - PAD)
  let right := min (img_w : ℤ) (x0 + w0 + PAD)
  let bottom := min (img_h : ℤ) (y0 + h0 + PAD)
  let bottom' := if bottom < top then top else bottom
  let right' := if right < left then left else right
  ⟨left, top, right', bottom'⟩

/-- The draw loop (source lines 166-171): emit every line, horizontally
centered in the final box, advancing y by line height plus 4, with no bounds
check of any kind. -/
def placeLines (font : Font) (x0 w0 : ℤ) : ℤ → List (List Char) → List Cmd
  | _, [] => []
  | y_offset, line :: rest =>
    let lw := font.width line
    let lh := font.height line
    let text_x := x0 + max 0 (Int.fdiv (w0 - (lw : ℤ)) 2)
    Cmd.drawText text_x y_offset line font ::
      placeLines font x0 w0 (y_offset + (lh : ℤ) + 4) rest

/-- One OCR region as consumed by the loop body: its box list and its raw
translation string. -/
structure Region where
  box : List ℤ
  translation : List Char

/-- The body of the per-region loop (source lines 48-171) as a command
emitter.  Skips on empty stripped translation, on a box that is not a list of
exactly four values, and on non-positive raw width or height; otherwise emits
the clamped padded cover fill and then the placed text lines. -/
def processRegion (env : FontEnv) (img_w img_h : ℕ) (item : Region) : List Cmd :=
  let translation := pyStrip item.translation
  if translation = [] then []
  else
    match item.box with
    | [x0, y0, w0, h0] =>
      if w0 ≤ 0 ∨ h0 ≤ 0 then []
      else
        let c := coverRect img_w img_h x0 y0 w0 h0
        let base_font := (env.truetype 24).getD env.default
        let r := fitSearch env translation x0 y0 img_w img_h 24 base_font w0 h0
        let total_height := r.lineHeights.sum + (r.lines.length - 1) * 4
        let y_offset := y0 + max 0 (Int.fdiv (r.h - (total_height : ℤ)) 2)
        Cmd.fillRect c.left c.top c.right c.bottom ::
          placeLines r.font x0 r.w y_offset r.lines
    | _ => []

/-- The whole pass over ocr_results (source line 48): regions are processed
independently in input order and their commands concatenated. -/
def translateRegions (env : FontEnv) (img_w img_h : ℕ) (ocr_results : List Region) :
    List Cmd :=
  ocr_results.flatMap (processRegion env img_w img_h)

/-- A malformed region box in the sense of the skip guards (source lines
51-56): not a list of exactly four values, or non-positive raw width or
height. -/
def malformedBox (r : Region) : Bool :=
  match r.box with
  | [_, _, w0, h0] => decide (w0 ≤ 0) || decide (h0 ≤ 0)
  | _ => true

/-- Number of text-draw commands in an emitted command list. -/
def drawCount (cmds : List Cmd) : ℕ :=
  cmds.countP fun c =>
    match c with
    | Cmd.drawText _ _ _ _ => true
    | _ => false

/-- The x coordinates of all text-draw commands, in emission order. -/
def drawXs (cmds : List Cmd) : List ℤ :=
  cmds.filterMap fun c =>
    match c with
    | Cmd.drawText x _ _ _ => some x
    | _ => none

/-- Whether every text-draw command stays vertically inside the canvas: the
drawn line's top plus its measured height must not pass the canvas height. -/
def drawsWithinCanvas (img_h : ℤ) (cmds : List Cmd) : Bool :=
  cmds.all fun c =>
    match c with
    | Cmd.drawText _ y text font => decide (y + (font.height text : ℤ) ≤ img_h)
    | _ => true

/-! Concrete fonts, environments and regions used to instantiate theorems
with hypotheses and to exhibit counterexamples.  Each font is a simple
deterministic metrics model (width proportional to character count, constant
height), standing in for one loaded DejaVuSans-Bold handle. -/

/-- A font measuring 1px per character, line height 1. -/
def cfThin : Font := ⟨fun l => l.length, fun _ => 1⟩

/-- Environment in which every truetype load succeeds with cfThin. -/
def envThin : FontEnv := ⟨fun _ => some cfThin, cfThin⟩

/-- A font measuring 6px per character, line height 10, independent of the
requested size (so shrinking never helps). -/
def cfWide : Font := ⟨fun l => 6 * l.length, fun _ => 10⟩

/-- Environment in which every truetype load succeeds with cfWide. -/
def envWide : FontEnv := ⟨fun _ => some cfWide, cfWide⟩

/-- A font measuring 10px per character, line height 10. -/
def cfBig : Font := ⟨fun l => 10 * l.length, fun _ => 10⟩

/-- Environment in which only size 24 loads (as cfBig); every other size
raises, modelling a failing ImageFont.truetype call inside the loop. -/
def envFail : FontEnv := ⟨fun s => if s = 24 then some cfBig else none, cfThin⟩

/-- The text mm. -/
def textMM : List Char := ['m', 'm']

/-- The text aa aa aa aa aa (five words). -/
def textFive : List Char :=
  ['a', 'a', ' ', 'a', 'a', ' ', 'a', 'a', ' ', 'a', 'a', ' ', 'a', 'a']

/-- The text aa bb. -/
def textAB : List Char := ['a', 'a', ' ', 'b', 'b']

/-- Region for the truncation counterexample: box 0,60,20,10 holding five
words on a 100 by 100 canvas. -/
def regFive : Region := ⟨[0, 60, 20, 10], textFive⟩

/-- Region with a partially out-of-canvas box x=-5. -/
def regNeg : Region := ⟨[-5, 0, 10, 10], textMM⟩

/-- Region whose box starts beyond the right canvas edge. -/
def regFar : Region := ⟨[200, 0, 10, 10], ['m']⟩

/-- Region exercising the in-loop font-load failure. -/
def regAB : Region := ⟨[0, 0, 25, 10], textAB⟩

/-- Region with whitespace-only translation. -/
def regBlank : Region := ⟨[0, 0, 5, 5], [' ', ' ']⟩

/-- Region with a three-element box. -/
def regShortBox : Region := ⟨[1, 2, 3], ['x']⟩

/-- A well-formed region used as a neighbour of skipped regions. -/
def regGood : Region := ⟨[0, 0, 5, 5], ['m']⟩

/-! Lemmas about the Python split model. -/

lemma pySplitAux_clean : ∀ s acc : List Char, (∀ c ∈ acc, c.isWhitespace = false) →
    ∀ w ∈ pySplitAux s acc, w ≠ [] ∧ ∀ c ∈ w, c.isWhitespace = false := by
  intro s
  induction s with
  | nil =>
    intro acc hacc w hw
    by_cases h : acc = []
    · simp [pySplitAux, h] at hw
    · simp [pySplitAux, h] at hw
      exact ⟨hw ▸ h, hw ▸ hacc⟩
  | cons c cs ih =>
    intro acc hacc w hw
    cases hc : c.isWhitespace with
    | true =>
      by_cases h : acc = []
      · simp only [pySplitAux, hc, if_true, h, if_pos] at hw
        exact ih [] (by simp) w hw
      · simp only [pySplitAux, hc, if_true, if_neg h] at hw
        rcases List.mem_cons.mp hw with hw | hw
        · exact ⟨hw ▸ h, hw ▸ hacc⟩
        · exact ih [] (by simp) w hw
    | false =>
      simp only [pySplitAux, hc, Bool.false_eq_true, if_false] at hw
      refine ih (acc ++ [c]) ?_ w hw
      intro c' hc'
      rcases List.mem_append.mp hc' with h' | h'
      · exact hacc c' h'
      · simpa [List.mem_singleton.mp h'] using hc

lemma pySplitAux_chars : ∀ w s acc : List Char, (∀ c ∈ w, c.isWhitespace = false) →
    pySplitAux (w ++ s) acc = pySplitAux s (acc ++ w) := by
  intro w
  induction w with
  | nil => intro s acc _; simp
  | cons c w' ih =>
    intro s acc hcl
    have hc : c.isWhitespace = false := hcl c (by simp)
    simp only [List.cons_append, pySplitAux, hc, Bool.false_eq_true, if_false, List.append_eq]
    rw [ih s (acc ++ [c]) (fun c' h' => hcl c' (by simp [h']))]
    simp

lemma pySplit_no_ws (w : List Char) (hne : w ≠ []) (hcl : ∀ c ∈ w, c.isWhitespace = false) :
    pySplit w = [w] := by
  have h1 : pySplitAux (w ++ []) [] = pySplitAux [] w := by
    simpa using pySplitAux_chars w [] [] hcl
  rw [pySplit, show w = w ++ ([] : List Char) from (List.append_nil w).symm, h1, pySplitAux]
  simp [hne]

lemma pySplit_word_space (w s : List Char) (hne : w ≠ [])
    (hcl : ∀ c ∈ w, c.isWhitespace = false) :
    pySplit (w ++ ' ' :: s) = w :: pySplit s := by
  rw [pySplit, pySplitAux_chars w (' ' :: s) [] hcl, List.nil_append]
  have hsp : (' ' : Char).isWhitespace = true := by decide
  simp only [pySplitAux, hsp, if_true, if_neg hne]
  rfl

lemma joinSp_cons (l : List Char) (ls : List (List Char)) (h : ls ≠ []) :
    joinSp (l :: ls) = l ++ ' ' :: joinSp ls := by
  cases ls with
  | nil => exact absurd rfl h
  | cons l' ls' => rfl

lemma pySplit_joinSp : ∀ ws : List (List Char),
    (∀ w ∈ ws, w ≠ [] ∧ ∀ c ∈ w, c.isWhitespace = false) →
    pySplit (joinSp ws) = ws := by
  intro ws
  induction ws with
  | nil => intro _; rfl
  | cons w ws' ih =>
    intro h
    cases ws' with
    | nil =>
      have hw := h w (by simp)
      simpa [joinSp] using pySplit_no_ws w hw.1 hw.2
    | cons v vs =>
      have hw := h w (by simp)
      rw [joinSp_cons w (v :: vs) (by simp), pySplit_word_space w _ hw.1 hw.2,
        ih (fun u hu => h u (List.mem_cons_of_mem w hu))]

/-! Lemmas about the greedy wrapper. -/

lemma wrapLoop_ne_nil (font : Font) (max_width : ℤ) :
    ∀ (ws : List (List Char)) (cur : List Char), wrapLoop font max_width cur ws ≠ [] := by
  intro ws
  induction ws with
  | nil => intro cur; simp [wrapLoop]
  | cons w ws' ih =>
    intro cur
    by_cases h : (font.width (cur ++ ' ' :: w) : ℤ) ≤ max_width
    · simpa [wrapLoop, h] using ih (cur ++ ' ' :: w)
    · simp [wrapLoop, h]

lemma joinSp_wrapLoop (font : Font) (max_width : ℤ) :
    ∀ (ws : List (List Char)) (cur : List Char),
      joinSp (wrapLoop font max_width cur ws) = joinSp (cur :: ws) := by
  intro ws
  induction ws with
  | nil => intro cur; rfl
  | cons w ws' ih =>
    intro cur
    by_cases h : (font.width (cur ++ ' ' :: w) : ℤ) ≤ max_width
    · rw [wrapLoop, if_pos h, ih (cur ++ ' ' :: w)]
      cases ws' with
      | nil => simp [joinSp]
      | cons v vs => simp [joinSp]
    · rw [wrapLoop, if_neg h,
        joinSp_cons cur (wrapLoop font max_width w ws') (wrapLoop_ne_nil font max_width ws' w),
        ih w]
      rfl

/-- C1: wrap completeness.  For every text, font and max width, space-joining
the lines returned by wrap_text_to_width and re-splitting on whitespace
reproduces exactly the whitespace-split word sequence of the original text:
no words dropped, duplicated, or reordered. -/
theorem wrap_words_preserved (text : List Char) (font : Font) (max_width : ℤ) :
    pySplit (joinSp (wrap_text_to_width text font max_width)) = pySplit text := by
  unfold wrap_text_to_width
  cases h : pySplit text with
  | nil => simp [joinSp, pySplit, pySplitAux]
  | cons w ws =>
    have hcl : ∀ u ∈ pySplit text, u ≠ [] ∧ ∀ c ∈ u, c.isWhitespace = false :=
      pySplitAux_clean text [] (by simp)
    rw [joinSp_wrapLoop]
    rw [pySplit_joinSp (w :: ws) (fun u hu => hcl u (by rw [h]; exact hu))]

/-! Lemmas about line widths. -/

lemma maxList_cons (x : ℕ) (xs : List ℕ) : maxList (x :: xs) = max x (maxList xs) := rfl

lemma le_maxList : ∀ l : List ℕ, ∀ a ∈ l, a ≤ maxList l := by
  intro l
  induction l with
  | nil => simp
  | cons x xs ih =>
    intro a ha
    rw [maxList_cons]
    rcases List.mem_cons.mp ha with rfl | h
    · exact le_max_left _ _
    · exact (ih a h).trans (le_max_right _ _)

lemma wrapLoop_width_or_mem (font : Font) (max_width : ℤ) (S : List (List Char)) :
    ∀ (ws : List (List Char)) (cur : List Char),
      (cur ∈ S ∨ (font.width cur : ℤ) ≤ max_width) → (∀ w ∈ ws, w ∈ S) →
      ∀ l ∈ wrapLoop font max_width cur ws,
        (font.width l : ℤ) ≤ max_width ∨ l ∈ S := by
  intro ws
  induction ws with
  | nil =>
    intro cur hcur _ l hl
    simp only [wrapLoop, List.mem_singleton] at hl
    subst hl
    exact hcur.symm.imp id id
  | cons w ws' ih =>
    intro cur hcur hws l hl
    by_cases h : (font.width (cur ++ ' ' :: w) : ℤ) ≤ max_width
    · rw [wrapLoop, if_pos h] at hl
      exact ih (cur ++ ' ' :: w) (Or.inr h)
        (fun u hu => hws u (List.mem_cons_of_mem w hu)) l hl
    · rw [wrapLoop, if_neg h] at hl
      rcases List.mem_cons.mp hl with rfl | hl'
      · exact hcur.symm.imp id id
      · exact ih w (Or.inl (hws w (by simp)))
          (fun u hu => hws u (List.mem_cons_of_mem w hu)) l hl'

lemma fitLoop_fit_width (env : FontEnv) (text : List Char) (x0 y0 : ℤ) (img_w img_h : ℕ) :
    ∀ (fuel font_size : ℕ) (f : Font) (w0 h0 : ℤ),
      (fitLoop env text x0 y0 img_w img_h fuel font_size f w0 h0).exit = ExitKind.fit →
      ∀ l ∈ (fitLoop env text x0 y0 img_w img_h fuel font_size f w0 h0).lines,
        ((fitLoop env text x0 y0 img_w img_h fuel font_size f w0 h0).font.width l : ℤ) ≤
          (fitLoop env text x0 y0 img_w img_h fuel font_size f w0 h0).w := by
  intro fuel
  induction fuel with
  | zero => intro fs f w0 h0 hexit; simp [fitLoop] at hexit
  | succ n ih =>
    intro fs f w0 h0 hexit l hl
    by_cases hm : misfit text f w0 h0
    · by_cases hfs : MIN_FONT < fs
      · cases htt : env.truetype (max MIN_FONT (fs - FONT_STEP)) with
        | none => simp [fitLoop, hm, hfs, htt] at hexit
        | some f' =>
          simp only [fitLoop, if_pos hm, if_pos hfs, htt] at hexit hl ⊢
          exact ih _ f' w0 h0 hexit l hl
      · simp [fitLoop, hm, hfs] at hexit
    · simp only [fitLoop, if_neg hm] at hl ⊢
      have hA : wrap_text_to_width text f w0 ≠ [] := List.ne_nil_of_mem hl
      rw [misfit] at hm
      push_neg at hm
      have h1 := (hm hA).1
      have h2 : f.width l ≤ maxList ((wrap_text_to_width text f w0).map f.width) :=
        le_maxList _ (f.width l) (List.mem_map_of_mem f.width hl)
      exact le_trans (by exact_mod_cast h2) h1

/-- C2: width bound.  Every line returned by wrap_text_to_width either
measures within max_width or is a single unsplittable word of the input
(a member of the whitespace split), emitted unsplit; and whenever the shrink
loop exits through its fit branch (before any box expansion intervenes),
every returned line measures within the rectangle width it was wrapped
against. -/
theorem wrap_width_bound (font : Font) (max_width : ℤ) (text : List Char) (env : FontEnv)
    (x0 y0 : ℤ) (img_w img_h : ℕ) (fuel font_size : ℕ) (f0 : Font) (w0 h0 : ℤ) :
    (∀ l ∈ wrap_text_to_width text font max_width,
        (font.width l : ℤ) ≤ max_width ∨ l ∈ pySplit text) ∧
    ((fitLoop env text x0 y0 img_w img_h fuel font_size f0 w0 h0).exit = ExitKind.fit →
      ∀ l ∈ (fitLoop env text x0 y0 img_w img_h fuel font_size f0 w0 h0).lines,
        ((fitLoop env text x0 y0 img_w img_h fuel font_size f0 w0 h0).font.width l : ℤ) ≤
          (fitLoop env text x0 y0 img_w img_h fuel font_size f0 w0 h0).w) := by
  constructor
  · intro l hl
    unfold wrap_text_to_width at hl
    cases h : pySplit text with
    | nil => rw [h] at hl; simp at hl
    | cons w ws =>
      rw [h] at hl
      exact wrapLoop_width_or_mem font max_width (w :: ws) ws w
        (Or.inl (List.mem_cons_self w ws))
        (fun u hu => List.mem_cons_of_mem w hu) l hl
  · exact fitLoop_fit_width env text x0 y0 img_w img_h fuel font_size f0 w0 h0

/-! Iteration counting for the shrink loop. -/

lemma fitLoop_iters_le (env : FontEnv) (text : List Char) (x0 y0 : ℤ) (img_w img_h : ℕ) :
    ∀ (fuel font_size : ℕ) (f : Font) (w0 h0 : ℤ),
      (fitLoop env text x0 y0 img_w img_h fuel font_size f w0 h0).iters ≤
        (font_size - MIN_FONT + FONT_STEP - 1) / FONT_STEP + 1 := by
  intro fuel
  induction fuel with
  | zero => intro fs f w0 h0; simp [fitLoop]
  | succ n ih =>
    intro fs f w0 h0
    by_cases hm : misfit text f w0 h0
    · by_cases hfs : MIN_FONT < fs
      · cases htt : env.truetype (max MIN_FONT (fs - FONT_STEP)) with
        | none => simp [fitLoop, hm, hfs, htt]
        | some f' =>
          simp only [fitLoop, if_pos hm, if_pos hfs, htt]
          have h1 := ih (max MIN_FONT (fs - FONT_STEP)) f' w0 h0
          simp only [MIN_FONT, FONT_STEP] at h1 hfs ⊢
          omega
      · simp [fitLoop, hm, hfs]
    · simp [fitLoop, hm]

lemma fitLoop_no_fuelOut (env : FontEnv) (text : List Char) (x0 y0 : ℤ) (img_w img_h : ℕ) :
    ∀ (fuel font_size : ℕ) (f : Font) (w0 h0 : ℤ),
      (font_size - MIN_FONT + FONT_STEP - 1) / FONT_STEP + 1 ≤ fuel →
      (fitLoop env text x0 y0 img_w img_h fuel font_size f w0 h0).exit ≠ ExitKind.fuelOut := by
  intro fuel
  induction fuel with
  | zero =>
    intro fs f w0 h0 hfuel
    exact absurd hfuel (by simp only [MIN_FONT, FONT_STEP]; omega)
  | succ n ih =>
    intro fs f w0 h0 hfuel
    by_cases hm : misfit text f w0 h0
    · by_cases hfs : MIN_FONT < fs
      · cases htt : env.truetype (max MIN_FONT (fs - FONT_STEP)) with
        | none => simp [fitLoop, hm, hfs, htt]
        | some f' =>
          simp only [fitLoop, if_pos hm, if_pos hfs, htt]
          refine ih (max MIN_FONT (fs - FONT_STEP)) f' w0 h0 ?_
          simp only [MIN_FONT, FONT_STEP] at hfuel hfs ⊢
          omega
      · simp [fitLoop, hm, hfs]
    · simp [fitLoop, hm]

/-- C3: monotone shrink termination.  The shrink loop's body executes at most
ceil((initial_size - MIN_FONT) / FONT_STEP) + 1 times, the loop never runs
out of the fuel fitSearch supplies (that is, it terminates by one of the
code's own break statements), and with the code's constants
(initial size 24, MIN_FONT 6, FONT_STEP 2) it runs at most 10 iterations. -/
theorem fit_search_iteration_bound (env : FontEnv) (text : List Char) (x0 y0 : ℤ)
    (img_w img_h : ℕ) (fuel font_size : ℕ) (f : Font) (w0 h0 : ℤ) :
    (fitLoop env text x0 y0 img_w img_h fuel font_size f w0 h0).iters ≤
        (font_size - MIN_FONT + FONT_STEP - 1) / FONT_STEP + 1 ∧
    ((font_size - MIN_FONT + FONT_STEP - 1) / FONT_STEP + 1 ≤ fuel →
      (fitLoop env text x0 y0 img_w img_h fuel font_size f w0 h0).exit ≠ ExitKind.fuelOut) ∧
    (fitSearch env text x0 y0 img_w img_h 24 f w0 h0).iters ≤ 10 ∧
    (fitSearch env text x0 y0 img_w img_h 24 f w0 h0).exit ≠ ExitKind.fuelOut := by
  refine ⟨fitLoop_iters_le env text x0 y0 img_w img_h fuel font_size f w0 h0,
    fitLoop_no_fuelOut env text x0 y0 img_w img_h fuel font_size f w0 h0, ?_, ?_⟩
  · have h := fitLoop_iters_le env text x0 y0 img_w img_h 25 24 f w0 h0
    simpa [fitSearch, MIN_FONT, FONT_STEP] using h
  · refine fitLoop_no_fuelOut env text x0 y0 img_w img_h 25 24 f w0 h0 ?_
    simp [MIN_FONT, FONT_STEP]

/-- C4: largest-fit preference.  Along any run of the shrink loop, the
candidate sizes are evaluated in descending order and the loop stops at the
first one that fits, so if any evaluated (size, font) pair fits the original
rectangle, the size the loop finally settles on is at least that size: no
smaller size is ever preferred over a working larger one. -/
theorem fit_search_largest_fit (env : FontEnv) (text : List Char) (x0 y0 : ℤ)
    (img_w img_h : ℕ) :
    ∀ (fuel font_size : ℕ) (f : Font) (w0 h0 : ℤ),
      ∀ p ∈ (fitLoop env text x0 y0 img_w img_h fuel font_size f w0 h0).trace,
        ¬ misfit text p.2 w0 h0 →
        p.1 ≤ (fitLoop env text x0 y0 img_w img_h fuel font_size f w0 h0).fontSize := by
  intro fuel
  induction fuel with
  | zero => intro fs f w0 h0 p hp; simp [fitLoop] at hp
  | succ n ih =>
    intro fs f w0 h0 p hp hfit
    by_cases hm : misfit text f w0 h0
    · by_cases hfs : MIN_FONT < fs
      · cases htt : env.truetype (max MIN_FONT (fs - FONT_STEP)) with
        | none =>
          simp only [fitLoop, if_pos hm, if_pos hfs, htt, List.mem_singleton] at hp
          subst hp
          exact absurd hm hfit
        | some f' =>
          simp only [fitLoop, if_pos hm, if_pos hfs, htt, List.mem_cons] at hp ⊢
          rcases hp with rfl | hp
          · exact absurd hm hfit
          · exact ih _ f' w0 h0 p hp hfit
      · simp only [fitLoop, if_pos hm, if_neg hfs, List.mem_singleton] at hp ⊢
        subst hp
        exact absurd hm hfit
    · simp only [fitLoop, if_neg hm, List.mem_singleton] at hp ⊢
      subst hp
      exact le_refl _

/-! Behaviour of the loop on an in-loop font-load failure, and of the
placer. -/

/-- C7 (amended): degraded mode on font-load failure.  When a truetype load
for a shrunk candidate size fails inside the loop, the loop falls back to the
built-in default font and terminates the search immediately, leaving the box
untouched and keeping the lines wrapped with the last successfully loaded
font (possibly several lines, drawn with the default font) - the failure is
absorbed, never propagated. -/
theorem font_fail_degraded_mode (env : FontEnv) (text : List Char) (x0 y0 : ℤ)
    (img_w img_h : ℕ) :
    ∀ (fuel font_size : ℕ) (f : Font) (w0 h0 : ℤ),
      (fitLoop env text x0 y0 img_w img_h fuel font_size f w0 h0).exit = ExitKind.fontFail →
      (fitLoop env text x0 y0 img_w img_h fuel font_size f w0 h0).font = env.default ∧
      (fitLoop env text x0 y0 img_w img_h fuel font_size f w0 h0).w = w0 ∧
      (fitLoop env text x0 y0 img_w img_h fuel font_size f w0 h0).h = h0 ∧
      (fitLoop env text x0 y0 img_w img_h fuel font_size f w0 h0).lines ≠ [] := by
  intro fuel
  induction fuel with
  | zero => intro fs f w0 h0 hexit; simp [fitLoop] at hexit
  | succ n ih =>
    intro fs f w0 h0 hexit
    by_cases hm : misfit text f w0 h0
    · by_cases hfs : MIN_FONT < fs
      · cases htt : env.truetype (max MIN_FONT (fs - FONT_STEP)) with
        | none =>
          simp only [fitLoop, if_pos hm, if_pos hfs, htt]
          exact ⟨trivial, trivial, trivial, hm.1⟩
        | some f' =>
          simp only [fitLoop, if_pos hm, if_pos hfs, htt] at hexit ⊢
          exact ih _ f' w0 h0 hexit
      · simp [fitLoop, hm, hfs] at hexit
    · simp [fitLoop, hm] at hexit

lemma placeLines_length (font : Font) (x0 w0 : ℤ) :
    ∀ (ls : List (List Char)) (y : ℤ), (placeLines font x0 w0 y ls).length = ls.length := by
  intro ls
  induction ls with
  | nil => intro y; rfl
  | cons l rest ih => intro y; simp [placeLines, ih]

lemma placeLines_mem (font : Font) (x0 w0 : ℤ) :
    ∀ (ls : List (List Char)) (y base : ℤ), base ≤ y →
      ∀ cmd ∈ placeLines font x0 w0 y ls,
        ∃ cx cy l, cmd = Cmd.drawText cx cy l font ∧ x0 ≤ cx ∧ base ≤ cy := by
  intro ls
  induction ls with
  | nil => intro y base _ cmd h; simp [placeLines] at h
  | cons l rest ih =>
    intro y base hby cmd hcmd
    simp only [placeLines] at hcmd
    rcases List.mem_cons.mp hcmd with rfl | h
    · refine ⟨_, _, l, rfl, ?_, hby⟩
      have h0 : (0 : ℤ) ≤ max 0 (Int.fdiv (w0 - (font.width l : ℤ)) 2) := le_max_left _ _
      omega
    · refine ih _ base ?_ cmd h
      have h0 : (0 : ℤ) ≤ (font.height l : ℤ) := Int.ofNat_nonneg _
      omega

/-- C5 (amended): unguarded line emission.  The draw loop performs no bounds
check at all: for every processed region it emits the cover fill followed by
exactly one text-draw command per wrapped line, regardless of the rectangle
bottom or the canvas height, so emission is never truncated (and lines can
extend past both bounds, as the counterexample shows). -/
theorem line_emission_unguarded (env : FontEnv) (img_w img_h : ℕ) (x0 y0 w0 h0 : ℤ)
    (t : List Char) (hw : 0 < w0) (hh : 0 < h0) (ht : pyStrip t ≠ []) :
    (processRegion env img_w img_h ⟨[x0, y0, w0, h0], t⟩).length =
      1 + (fitSearch env (pyStrip t) x0 y0 img_w img_h 24
        ((env.truetype 24).getD env.default) w0 h0).lines.length := by
  simp only [processRegion]
  rw [if_neg ht, if_neg (by omega : ¬(w0 ≤ 0 ∨ h0 ≤ 0))]
  simp [placeLines_length, Nat.add_comm]

/-- C6 (amended): regions with negative or out-of-canvas coordinates and
positive raw width and height are processed, not skipped, but the rectangle
itself is never clamped: only the padded cover rectangle is clamped to the
canvas, and all subsequent layout is anchored at the raw rectangle origin
(every text-draw command sits at x at least x0 and y at least y0, for the
raw, possibly negative, x0 and y0 - in particular draw coordinates can be
negative, as the counterexample shows). -/
theorem region_processed_unclamped (env : FontEnv) (img_w img_h : ℕ) (x0 y0 w0 h0 : ℤ)
    (t : List Char) (hw : 0 < w0) (hh : 0 < h0) (ht : pyStrip t ≠ []) :
    (processRegion env img_w img_h ⟨[x0, y0, w0, h0], t⟩).head? =
      some (Cmd.fillRect (coverRect img_w img_h x0 y0 w0 h0).left
        (coverRect img_w img_h x0 y0 w0 h0).top
        (coverRect img_w img_h x0 y0 w0 h0).right
        (coverRect img_w img_h x0 y0 w0 h0).bottom) ∧
    ∀ cmd ∈ (processRegion env img_w img_h ⟨[x0, y0, w0, h0], t⟩).tail,
      ∃ cx cy l f, cmd = Cmd.drawText cx cy l f ∧ x0 ≤ cx ∧ y0 ≤ cy := by
  simp only [processRegion]
  rw [if_neg ht, if_neg (by omega : ¬(w0 ≤ 0 ∨ h0 ≤ 0))]
  refine ⟨rfl, ?_⟩
  intro cmd hcmd
  simp only [List.tail_cons] at hcmd
  have hbase : y0 ≤ y0 + max 0 (Int.fdiv
      ((fitSearch env (pyStrip t) x0 y0 img_w img_h 24
        ((env.truetype 24).getD env.default) w0 h0).h -
        (((fitSearch env (pyStrip t) x0 y0 img_w img_h 24
          ((env.truetype 24).getD env.default) w0 h0).lineHeights.sum +
          ((fitSearch env (pyStrip t) x0 y0 img_w img_h 24
            ((env.truetype 24).getD env.default) w0 h0).lines.length - 1) * 4 : ℕ) : ℤ)) 2) := by
    have h0 : (0 : ℤ) ≤ max 0 (Int.fdiv
        ((fitSearch env (pyStrip t) x0 y0 img_w img_h 24
          ((env.truetype 24).getD env.default) w0 h0).h -
          (((fitSearch env (pyStrip t) x0 y0 img_w img_h 24
            ((env.truetype 24).getD env.default) w0 h0).lineHeights.sum +
            ((fitSearch env (pyStrip t) x0 y0 img_w img_h 24
              ((env.truetype 24).getD env.default) w0 h0).lines.length - 1) * 4 : ℕ) : ℤ)) 2) :=
      le_max_left _ _
    omega
  obtain ⟨cx, cy, l, hceq, hx, hy⟩ := placeLines_mem _ x0 _ _ _ y0 hbase cmd hcmd
  exact ⟨cx, cy, l, _, hceq, hx, hy⟩

/-- C9 (amended): cover-rectangle shape invariant.  For every integer box the
padded cover rectangle is never inverted and never negative
(0 ≤ left ≤ right, 0 ≤ top ≤ bottom), and its right and bottom edges stay
within the canvas except that a raw box starting beyond the right or bottom
canvas edge (x0 > canvas width + PAD, resp. y0 > canvas height + PAD) yields
a degenerate zero-extent cover placed outside the canvas: right is bounded by
max of the canvas width and left, bottom by max of the canvas height and
top. -/
theorem cover_rect_bounds (img_w img_h : ℕ) (x0 y0 w0 h0 : ℤ) :
    0 ≤ (coverRect img_w img_h x0 y0 w0 h0).left ∧
    (coverRect img_w img_h x0 y0 w0 h0).left ≤ (coverRect img_w img_h x0 y0 w0 h0).right ∧
    0 ≤ (coverRect img_w img_h x0 y0 w0 h0).top ∧
    (coverRect img_w img_h x0 y0 w0 h0).top ≤ (coverRect img_w img_h x0 y0 w0 h0).bottom ∧
    (coverRect img_w img_h x0 y0 w0 h0).right ≤
      max (img_w : ℤ) (coverRect img_w img_h x0 y0 w0 h0).left ∧
    (coverRect img_w img_h x0 y0 w0 h0).bottom ≤
      max (img_h : ℤ) (coverRect img_w img_h x0 y0 w0 h0).top := by
  simp only [coverRect, PAD]
  split_ifs <;> refine ⟨?_, ?_, ?_, ?_, ?_, ?_⟩ <;> omega

/-- C8: empty-text skip.  A region whose translation is empty after
stripping is silently skipped: no commands at all are emitted for it, not
even the cover fill, and removing it from the request leaves the emitted
command stream of every other region unchanged. -/
theorem empty_text_skip (env : FontEnv) (img_w img_h : ℕ) (pre post : List Region)
    (r : Region) (h : pyStrip r.translation = []) :
    processRegion env img_w img_h r = [] ∧
      translateRegions env img_w img_h (pre ++ r :: post) =
        translateRegions env img_w img_h (pre ++ post) := by
  have h1 : processRegion env img_w img_h r = [] := by
    simp [processRegion, h]
  exact ⟨h1, by simp [translateRegions, h1]⟩

/-- C10: malformed-region skip.  A region whose box is not a list of exactly
four values, or whose raw width or height is non-positive, is skipped before
any drawing: it emits no commands, and removing it from the request leaves
every other region's commands unchanged. -/
theorem malformed_region_skip (env : FontEnv) (img_w img_h : ℕ) (pre post : List Region)
    (r : Region) (h : malformedBox r = true) :
    processRegion env img_w img_h r = [] ∧
      translateRegions env img_w img_h (pre ++ r :: post) =
        translateRegions env img_w img_h (pre ++ post) := by
  have h1 : processRegion env img_w img_h r = [] := by
    obtain ⟨box, t⟩ := r
    by_cases hstrip : pyStrip t = []
    · simp [processRegion, hstrip]
    · rcases box with _ | ⟨a, _ | ⟨b, _ | ⟨c, _ | ⟨d, _ | ⟨e, rest⟩⟩⟩⟩⟩
      · simp [processRegion, hstrip]
      · simp [processRegion, hstrip]
      · simp [processRegion, hstrip]
      · simp [processRegion, hstrip]
      · simp only [malformedBox, Bool.or_eq_true, decide_eq_true_eq] at h
        simp [processRegion, hstrip, h]
      · simp [processRegion, hstrip]
  exact ⟨h1, by simp [translateRegions, h1]⟩

/-! Counterexamples and concrete instantiations. -/

/-- C5 counterexample: on a 100 by 100 canvas, box 0,60,20,10 with five
words under cfWide is expanded to height 40 (bottom 100), yet all five lines
are emitted - the fourth starts at y 102 and the fifth at y 116, extending
past both the adjusted rectangle bottom and the canvas height, so no
stop-before-emitting guard exists. -/
theorem line_emission_guard_cex :
    drawCount (processRegion envWide 100 100 regFive) = 5 ∧
    drawsWithinCanvas 100 (processRegion envWide 100 100 regFive) = false := by
  decide

/-- C6 counterexample: for box -5,0,10,10 on a 100 by 100 canvas the single
text-draw command sits at x = -1, which is impossible under layout from the
claimed clamped rectangle 0,0,5,10 (that would give x at least 0): the
region rectangle is not clamped before layout. -/
theorem rect_clamp_cex :
    drawXs (processRegion envThin 100 100 regNeg) = [-1] ∧ ¬((0 : ℤ) ≤ (-1 : ℤ)) := by
  decide

/-- C7 counterexample: with truetype failing at every size except 24, the
search for box 0,0,25,10 exits through the font-failure branch yet the
region is rendered with two wrapped lines, not as a single unwrapped
line. -/
theorem font_fail_single_line_cex :
    (fitSearch envFail textAB 0 0 100 100 24
      ((envFail.truetype 24).getD envFail.default) 25 10).exit = ExitKind.fontFail ∧
    drawCount (processRegion envFail 100 100 regAB) = 2 := by
  decide

/-- C9 counterexample: for box 200,0,10,10 on a 100 by 100 canvas the region
is processed (two commands are emitted) and the cover rectangle is
left 198, top 0, right 198, bottom 12, whose right edge 198 exceeds the
canvas width 100 - the claimed invariant right ≤ canvas width fails. -/
theorem cover_rect_bounds_cex :
    coverRect 100 100 200 0 10 10 = ⟨198, 0, 198, 12⟩ ∧
    ¬((198 : ℤ) ≤ (100 : ℤ)) ∧
    (processRegion envThin 100 100 regFar).length = 2 := by
  decide

/-! Witnesses: concrete instantiations of the theorems with hypotheses. -/

theorem wrap_width_bound_witness :
    (cfThin.width textMM : ℤ) ≤ 10 ∨ textMM ∈ pySplit textMM :=
  (wrap_width_bound cfThin 10 textMM envThin 0 0 100 100 25 24 cfThin 10 10).1
    textMM (by decide)

theorem fit_search_iteration_bound_witness :
    (fitLoop envThin textMM 0 0 100 100 25 24 cfThin 10 10).exit ≠ ExitKind.fuelOut :=
  (fit_search_iteration_bound envThin textMM 0 0 100 100 25 24 cfThin 10 10).2.1
    (by decide)

theorem fit_search_largest_fit_witness :
    (24 : ℕ) ≤ (fitLoop envThin textMM 0 0 100 100 25 24 cfThin 10 10).fontSize :=
  fit_search_largest_fit envThin textMM 0 0 100 100 25 24 cfThin 10 10 (24, cfThin)
    (by
      have h : (fitLoop envThin textMM 0 0 100 100 25 24 cfThin 10 10).trace =
          [(24, cfThin)] := rfl
      rw [h]
      exact List.Mem.head _)
    (by decide)

theorem line_emission_unguarded_witness :
    (processRegion envWide 100 100 ⟨[0, 60, 20, 10], textFive⟩).length =
      1 + (fitSearch envWide (pyStrip textFive) 0 60 100 100 24
        ((envWide.truetype 24).getD envWide.default) 20 10).lines.length :=
  line_emission_unguarded envWide 100 100 0 60 20 10 textFive (by decide) (by decide)
    (by decide)

theorem region_processed_unclamped_witness :
    (processRegion envThin 100 100 ⟨[-5, 0, 10, 10], textMM⟩).head? =
      some (Cmd.fillRect (coverRect 100 100 (-5) 0 10 10).left
        (coverRect 100 100 (-5) 0 10 10).top (coverRect 100 100 (-5) 0 10 10).right
        (coverRect 100 100 (-5) 0 10 10).bottom) :=
  (region_processed_unclamped envThin 100 100 (-5) 0 10 10 textMM (by decide) (by decide)
    (by decide)).1

theorem font_fail_degraded_mode_witness :
    (fitLoop envFail textAB 0 0 100 100 25 24 cfBig 25 10).font = envFail.default :=
  (font_fail_degraded_mode envFail textAB 0 0 100 100 25 24 cfBig 25 10 (by decide)).1

theorem empty_text_skip_witness :
    processRegion envThin 10 10 regBlank = [] :=
  (empty_text_skip envThin 10 10 [] [] regBlank (by decide)).1

theorem malformed_region_skip_witness :
    translateRegions envThin 10 10 ([regGood] ++ regShortBox :: []) =
      translateRegions envThin 10 10 ([regGood] ++ []) :=
  (malformed_region_skip envThin 10 10 [regGood] [] regShortBox (by decide)).2

end TranslateImage
